import Mathlib

/-!
Verification of the document indexing and hybrid retrieval core of the `rag`
repository, as a shallow embedding in Lean 4.

Source files embedded here:
 * `src/utils.py`      — token estimation and structure-aware chunking;
 * `src/rag_index.py`  — token-aware embedding batching, FAISS index build,
                         hybrid semantic+BM25 search, index append;
 * `src/e.py`          — index append with document normalization, checkpointed
                         index build and its verification step;
 * `src/test.py`       — a second copy of the checkpointed build.

Modelling conventions:
 * Python `str` is Lean `String`; positions/lengths count characters, as
   Python counts code points.
 * Python's unbounded `int` is `Nat`/`Int`; `int(x / y)` on non-negative
   values is `Nat` division.
 * The two float literals of the source (`1.3` in `estimate_tokens`,
   `0.8` in `truncate_to_tokens`, `1e-6` in `semantic_search`) are modelled
   as exact rationals; `int(words * 1.3)` is `13 * words / 10`, and the
   comparison `last_newline > max_chars * 0.8` is `10 * l > 8 * m` (both
   agree with the float semantics on all machine-sized inputs, because the
   compared quantities are at least 1/10 apart whenever they differ).
 * Scores in the retriever are exact rationals `ℚ`; FAISS distances and BM25
   scores are inputs to the embedded code, produced by external libraries.
 * External collaborators (the Azure embedding provider, `faiss`'s nearest
   neighbour search, `rank_bm25`'s scorer, the checkpointed retry helper
   that is absent from `src/`) are parameters of the embedded functions;
   their documented contracts appear as hypotheses where a claim needs them.
-/

/-! ## Token estimation (`utils.estimate_tokens` = `rag_index.estimate_tokens`) -/

/-- One step of Python `str.split()` word counting: `inW` records whether the
previous character was inside a word. -/
def countWordsAux : List Char → Bool → Nat
  | [], _ => 0
  | c :: cs, inW =>
    if c.isWhitespace then countWordsAux cs false
    else (if inW then 0 else 1) + countWordsAux cs true

/-- `len(text.split())`: number of maximal non-whitespace runs. -/
def pyWordCount (s : String) : Nat := countWordsAux s.data false

/-- `estimate_tokens` from `src/utils.py` lines 29-37 (identical copy in
`src/rag_index.py` lines 21-29): `max(int(words * 1.3), int(chars / 4))`. -/
def estimate_tokens (s : String) : Nat :=
  max (13 * pyWordCount s / 10) (s.data.length / 4)

/-! ## Truncation (`rag_index.truncate_to_tokens`) -/

/-- `text.rfind(c)`: highest index of `c` in `s`, `-1` if absent. -/
def pyRfindAux (c : Char) : List Char → Nat → Int → Int
  | [], _, best => best
  | x :: xs, i, best => pyRfindAux c xs (i + 1) (if x = c then (i : Int) else best)

def pyRfind (s : String) (c : Char) : Int := pyRfindAux c s.data 0 (-1)

/-- `text[:n]` for a non-negative slice bound. -/
def takePrefix (s : String) (n : Nat) : String := String.mk (s.data.take n)

/-- `truncate_to_tokens` from `src/rag_index.py` lines 32-48: keep the text
when it fits in `max_tokens * 4` characters, otherwise cut at `max_tokens * 4`
characters, move the cut back to the last newline when that newline lies in
the final 20% of the window, and append the `"\n... [truncated]"` marker. -/
def truncate_to_tokens (s : String) (maxTokens : Nat) : String :=
  let maxChars := maxTokens * 4
  if s.data.length ≤ maxChars then s
  else
    let truncated := takePrefix s maxChars
    let lastNewline := pyRfind truncated '\n'
    let kept :=
      if 10 * lastNewline > 8 * (maxChars : Int) then takePrefix truncated lastNewline.toNat
      else truncated
    kept ++ "\n... [truncated]"

/-! ## Structure-aware chunking (`src/utils.py`)

The paragraph strategy `_chunk_by_paragraphs_with_tokens` (lines 259-281) and
the forced line-based splitter `_force_split_large_chunk` (lines 284-311) are
embedded below.  Python's `re.split(r'\n\s*\n', text)` is implemented as a
direct scanner: a separator starts at a `'\n'`, greedily consumes whitespace,
and must end with another `'\n'` (with the backtracking the greedy `\s*`
performs); `text.split('\n')` keeps empty pieces, as in Python. -/

/-- Length of the `\s*\n` tail of a separator match starting after an initial
`'\n'`: the largest `j` with `cs.take j` all whitespace and `cs[j] = '\n'`,
which is what the greedy `\s*` followed by `\n` matches. -/
def sepLen : List Char → Option Nat
  | [] => none
  | c :: cs =>
    if c.isWhitespace then
      match sepLen cs with
      | some n => some (n + 1)
      | none => if c = '\n' then some 0 else none
    else none

/-- Scanner for `re.split(r'\n\s*\n', text)`: `acc` is the piece accumulated
since the previous separator. -/
def splitParasAux : List Char → List Char → List (List Char)
  | [], acc => [acc]
  | c :: cs, acc =>
    if c = '\n' then
      match sepLen cs with
      | some n => acc :: splitParasAux (cs.drop (n + 1)) []
      | none => splitParasAux cs (acc ++ [c])
    else splitParasAux cs (acc ++ [c])
termination_by cs _ => cs.length
decreasing_by
  all_goals simp only [List.length_drop, List.length_cons]
  all_goals omega

/-- `re.split(r'\n\s*\n', text)` from `_chunk_by_paragraphs_with_tokens`. -/
def pySplitParagraphs (s : String) : List String :=
  (splitParasAux s.data []).map String.mk

/-- `text.split('\n')`: split at every newline, keeping empty pieces. -/
def pySplitOnNl : List Char → List (List Char)
  | [] => [[]]
  | c :: cs =>
    if c = '\n' then [] :: pySplitOnNl cs
    else
      match pySplitOnNl cs with
      | [] => [[c]]
      | w :: ws => (c :: w) :: ws

/-- `sep.join(pieces)`. -/
def pyJoinSep (sep : String) : List String → String
  | [] => ""
  | [x] => x
  | x :: xs => x ++ sep ++ pyJoinSep sep xs

/-- Sum of per-piece token estimates, the quantity the chunkers accumulate in
`current_tokens`. -/
def sumTokens (ls : List String) : Nat := (ls.map estimate_tokens).sum

/-- The accumulation loop of `_chunk_by_paragraphs_with_tokens` (lines
266-279), returning the groups of consecutive paragraphs that become chunks:
when `current_tokens + para_tokens > target_tokens` and the current group is
non-empty it is flushed, then the paragraph is always appended. -/
def paraGroupsAux (target : Nat) : List String → List String → Nat → List (List String)
  | [], cur, _ => if cur = [] then [] else [cur]
  | p :: ps, cur, tok =>
    let pt := estimate_tokens p
    if target < tok + pt ∧ cur ≠ [] then
      cur :: paraGroupsAux target ps [p] pt
    else paraGroupsAux target ps (cur ++ [p]) (tok + pt)

/-- `_chunk_by_paragraphs_with_tokens(text, max_chars, overlap, target_tokens)`
(`src/utils.py` lines 259-281).  `max_chars` and `overlap` are parameters of
the source function that its body never uses. -/
def chunkByParagraphsWithTokens (text : String) (maxChars overlap targetTokens : Nat) :
    List String :=
  (paraGroupsAux targetTokens (pySplitParagraphs text) [] 0).map (pyJoinSep "\n\n")

/-- `_get_overlap_lines` (lines 314-326): walk the lines backwards, keeping
whole lines while their cumulative `len(line) + 1` stays within
`overlap_chars`. -/
def getOverlapAux (overlapChars : Nat) : List String → List String → Nat → List String
  | [], acc, _ => acc
  | l :: rest, acc, size =>
    let ls := l.data.length + 1
    if overlapChars < size + ls then acc
    else getOverlapAux overlapChars rest (l :: acc) (size + ls)

def getOverlapLines (lines : List String) (overlapChars : Nat) : List String :=
  getOverlapAux overlapChars lines.reverse [] 0

/-- The line accumulation loop of `_force_split_large_chunk` (lines 294-309):
on overflow the current group is flushed and the next group is seeded with
the overlap lines of the flushed group. -/
def forceSplitAux (target overlap : Nat) : List String → List String → Nat → List (List String)
  | [], cur, _ => if cur = [] then [] else [cur]
  | l :: ls, cur, tok =>
    let lt := estimate_tokens l
    if target < tok + lt ∧ cur ≠ [] then
      let seed := getOverlapLines cur overlap
      cur :: forceSplitAux target overlap ls (seed ++ [l]) (sumTokens seed + lt)
    else forceSplitAux target overlap ls (cur ++ [l]) (tok + lt)

/-- `_force_split_large_chunk(text, target_tokens, overlap)` (`src/utils.py`
lines 284-311). -/
def forceSplitLargeChunk (text : String) (target overlap : Nat) : List String :=
  (forceSplitAux target overlap ((pySplitOnNl text.data).map String.mk) [] 0).map
    (pyJoinSep "\n")

/-! ### Chunker lemmas -/

/-- A 4100-character single-line document: estimated at 1025 tokens, well above
`2 * 500`, and routed to the paragraph strategy (it contains none of the
C#/TypeScript/JavaScript/SQL markers of `_detect_file_type`). -/
def c3Text : String := String.mk (List.replicate 4100 'a')

/-- The single 10,000-character line of claim C4's scenario. -/
def c4Line : String := String.mk (List.replicate 10000 'a')

/-! ## Token-aware embedding batching (`rag_index._embed_texts`, lines 66-140)

The external provider call
`client.embeddings.create(model=..., input=current_batch)` returns one
embedding per batch element in request order (the documented provider
contract, spec §6); it is modelled as a per-text function `f`, so a flushed
batch contributes `batch.map f`. -/

def MAX_TOKENS_PER_BATCH : Nat := 4000

def MAX_TOKENS_PER_TEXT : Nat := 4500

/-- The per-text preprocessing of `_embed_texts`: a text whose estimate
exceeds `MAX_TOKENS_PER_TEXT` is truncated before being batched. -/
def preprocessText (t : String) : String :=
  if MAX_TOKENS_PER_TEXT < estimate_tokens t then truncate_to_tokens t MAX_TOKENS_PER_TEXT
  else t

/-- The batching loop of `_embed_texts`: `cur` is `current_batch`, `tok` is
`current_tokens`; when adding the next text would push the batch over
`MAX_TOKENS_PER_BATCH` and the batch is non-empty, the batch is flushed and a
new one starts with the pending text; the final batch is flushed at the end. -/
def embedLoop {α : Type} (f : String → α) : List String → List String → Nat → List α
  | [], cur, _ => cur.map f
  | t :: ts, cur, tok =>
    let t2 := preprocessText t
    let tk := estimate_tokens t2
    if MAX_TOKENS_PER_BATCH < tok + tk ∧ cur ≠ [] then
      cur.map f ++ embedLoop f ts [t2] tk
    else embedLoop f ts (cur ++ [t2]) (tok + tk)

/-- `_embed_texts(texts)` (`src/rag_index.py` lines 66-140): the `np.vstack`
of the per-batch results.  An empty input returns the empty vector list. -/
def embedTexts {α : Type} (f : String → α) (texts : List String) : List α :=
  if texts = [] then [] else embedLoop f texts [] 0

/-! ## Hybrid semantic + BM25 search (`rag_index.semantic_search`, lines 400-463)

External collaborators and their models:
 * `client.embeddings.create` for the query — a fallible function
   `embedQ : String → Except String (List ℚ)`;
 * `index.search(query_vec, top_k*2)` — a function
   `searchFn : List ℚ → Nat → List (ℚ × Int)` returning `(distance, index)`
   candidate pairs in FAISS rank order (ascending distance; indices are
   non-negative when the index holds at least as many vectors as requested,
   `-1`-padded otherwise);
 * `BM25Okapi(documents).get_scores(query_tokens)` — a function
   `scorer : List (List String) → List String → List ℚ` returning one
   lexical score per corpus document.

The Python `dict` `sem_results` is an insertion-ordered association list;
`sorted(sem_results, key=..., reverse=True)` is Python's stable descending
sort, modelled by a stable insertion sort. -/

/-- `_tokenize` (`src/rag_index.py` lines 400-402):
`re.findall(r"\w+", text.lower())`. -/
def isWordChar (c : Char) : Bool := c.isAlphanum || c = '_'

def tokenizeAux : List Char → List Char → List String
  | [], acc => if acc = [] then [] else [String.mk acc.reverse]
  | c :: cs, acc =>
    if isWordChar c then tokenizeAux cs (c :: acc)
    else if acc = [] then tokenizeAux cs [] else String.mk acc.reverse :: tokenizeAux cs []

def pyTokenize (s : String) : List String := tokenizeAux (s.data.map Char.toLower) []

/-- Insertion-ordered association list with the Python `dict` operations the
search uses: membership, read, and write (updating in place, appending new
keys at the end). -/
abbrev Dict : Type := List (Int × ℚ)

def dmem (d : Dict) (k : Int) : Bool := d.any (fun p => p.1 == k)

def dget (d : Dict) (k : Int) : ℚ :=
  match d.find? (fun p => p.1 == k) with
  | some p => p.2
  | none => 0

def dset (d : Dict) (k : Int) (v : ℚ) : Dict :=
  if dmem d k then d.map (fun p => if p.1 == k then (k, v) else p)
  else d ++ [(k, v)]

def dkeys (d : Dict) : List Int := d.map (fun p => p.1)

/-- The FAISS candidate loop (lines 437-440): for each `(dist, idx)` pair, if
`idx < len(metadata)` record the inverse-distance score
`1 / (dist + 1e-6)`. -/
def semLoop (metaLen : Nat) : List (ℚ × Int) → Dict → Dict
  | [], d => d
  | (dist, idx) :: rest, d =>
    semLoop metaLen rest
      (if idx < (metaLen : Int) then dset d idx (1 / (dist + 1 / 1000000)) else d)

/-- The BM25 fusion loop (lines 447-451): `for idx, score in
enumerate(bm_scores)`, add the lexical score to an existing entry or create a
new one. -/
def bmLoop : Nat → List ℚ → Dict → Dict
  | _, [], d => d
  | i, s :: ss, d =>
    bmLoop (i + 1) ss (if dmem d (i : Int) then dset d (i : Int) (dget d (i : Int) + s) else dset d (i : Int) s)

/-- The fused score dictionary `sem_results` after both loops. -/
def fusedDict (cands : List (ℚ × Int)) (bmScores : List ℚ) (metaLen : Nat) : Dict :=
  bmLoop 0 bmScores (semLoop metaLen cands [])

/-- Stable insertion step for Python's
`sorted(keys, key=score, reverse=True)`: `x` goes after every strictly
greater element and before everything else, so equal-score elements keep
their original relative order. -/
def insertDesc (score : Int → ℚ) (x : Int) : List Int → List Int
  | [] => [x]
  | y :: ys => if score x < score y then y :: insertDesc score x ys else x :: y :: ys

/-- Python's `sorted(..., reverse=True)`: the unique stable descending sort. -/
def stableSortDesc (score : Int → ℚ) : List Int → List Int
  | [] => []
  | x :: xs => insertDesc score x (stableSortDesc score xs)

/-- One result record: the metadata position the result was built from
(`metadata[idx].copy()`), its fused score, and its 1-based rank. -/
structure SearchResult where
  pos : Int
  score : ℚ
  rank : Nat
  deriving DecidableEq

/-- The result assembly loop (lines 455-460): `for rank, idx in
enumerate(sorted_indices)`. -/
def buildResultsAux (score : Int → ℚ) : Nat → List Int → List SearchResult
  | _, [] => []
  | rank, k :: ks => ⟨k, score k, rank + 1⟩ :: buildResultsAux score (rank + 1) ks

/-- The ranking core of `semantic_search` (lines 437-460), from the FAISS
candidate pairs and the BM25 score array to the ranked result list:
build `sem_results`, sort its keys by fused score descending (stably), keep
the first `top_k`, and attach scores and ranks. -/
def semanticSearchCore (cands : List (ℚ × Int)) (bmScores : List ℚ)
    (metaLen topK : Nat) : List SearchResult :=
  let d := fusedDict cands bmScores metaLen
  let sortedIdx := (stableSortDesc (dget d) (dkeys d)).take topK
  buildResultsAux (dget d) 0 sortedIdx

/-- The query truncation step of `semantic_search` (lines 427-430). -/
def truncateQuery (q : String) : String :=
  if 7000 < estimate_tokens q then truncate_to_tokens q 7000 else q

/-- `semantic_search` (lines 404-463).  The query is truncated if oversized,
embedded by the provider (a failure propagates — there is no handler), the
FAISS index is searched for `top_k * 2` candidates, BM25 scores are computed
over the tokenized metadata texts, and the fused ranking is assembled. -/
def semanticSearch (scorer : List (List String) → List String → List ℚ)
    (embedQ : String → Except String (List ℚ))
    (searchFn : List ℚ → Nat → List (ℚ × Int))
    (metaTexts : List String) (queryText : String) (topK : Nat) :
    Except String (List SearchResult) :=
  let q := truncateQuery queryText
  match embedQ q with
  | Except.error e => Except.error e
  | Except.ok v =>
    let cands := searchFn v (topK * 2)
    let documents := metaTexts.map pyTokenize
    let bmScores := scorer documents (pyTokenize q)
    Except.ok (semanticSearchCore cands bmScores metaTexts.length topK)

/-! ### Sorting and dictionary lemmas -/

/-- FAISS candidates for the C6 counterexample: five corpus positions plus two
more (`metaLen = 7`), `top_k = 3`, so `index.search` returns the `6` nearest
of the seven vectors — every position except `0`, in ascending-distance
order.  Distance `999999/1000000` for position `1` makes its inverse-distance
score exactly `1`. -/
def c6Cands : List (ℚ × Int) := [(1/2, 2), (999999/1000000, 1), (2, 3), (3, 4), (4, 5), (5, 6)]

/-- BM25 scores for the C6 counterexample: the query term occurs only in
document `0`. -/
def c6Bm : List ℚ := [1, 0, 0, 0, 0, 0, 0]

/-! ## FAISS index build and append (`rag_index.py`, `e.py`)

The persisted state is the pair of files (vector index, metadata pickle); it
is modelled as a record holding both.  The embedding provider is the per-text
function `f` (as in `_embed_texts` above); `e.py`'s checkpointed helper
`_embed_texts_with_retry` is not part of `src/` and is passed as a fallible
function `g` whose contract (one vector per input on success, spec §4.3) is a
hypothesis where needed. -/

/-- A code chunk as consumed by `rag_index.build_faiss_index`:
`chunk["text"]` is mandatory, `chunk.get("file", "unknown")` and
`chunk.get("hash", "")` are optional. -/
structure RChunk where
  text : String
  file : Option String
  hash : Option String

/-- A supporting document as consumed by `rag_index.build_faiss_index` and
`rag_index.add_documents_to_index`. -/
structure RDoc where
  text : String
  title : Option String
  source : Option String

/-- A metadata record written by `rag_index.py`: either a `"type": "code"`
record or a `"type": "document"` record. -/
inductive RMeta where
  | code (file hash text : String)
  | doc (title source text : String)

def metaText : RMeta → String
  | RMeta.code _ _ t => t
  | RMeta.doc _ _ t => t

/-- `build_faiss_index` (`src/rag_index.py` lines 231-321): pair each code
chunk, then each supporting document, with its metadata record; with no texts
return `(None, [])` (modelled as `none`); otherwise embed every text, add all
embeddings to a fresh `IndexFlatL2`, and persist index and metadata together.
The returned pair is (vectors held by the index, metadata list); both are
written to disk as a pair.  (`if supporting_docs:` skips `None` and `[]`,
which contribute no pairs either way.) -/
def ragBuildPairs (chunks : List RChunk) (sdocs : Option (List RDoc)) :
    List (String × RMeta) :=
  (chunks.map fun c =>
    (c.text, RMeta.code (c.file.getD "unknown") (c.hash.getD "") c.text))
  ++ (match sdocs with
      | none => []
      | some ds => ds.map fun d =>
          (d.text, RMeta.doc (d.title.getD "Unknown Document") (d.source.getD "") d.text))

def ragBuildFaissIndex {α : Type} (f : String → α) (chunks : List RChunk)
    (sdocs : Option (List RDoc)) : Option (List α × List RMeta) :=
  if (ragBuildPairs chunks sdocs).map (fun p => p.1) = [] then none
  else some (embedTexts f ((ragBuildPairs chunks sdocs).map (fun p => p.1)),
    (ragBuildPairs chunks sdocs).map (fun p => p.2))

/-- The two files behind one index path: `index.faiss` and `.meta.pkl`;
`none` models a missing file. -/
structure RagStore (α : Type) where
  path : String
  indexFile : Option (List α)
  metaFile : Option (List RMeta)

/-- `load_faiss_index` (`src/rag_index.py` lines 326-346): raises
`FileNotFoundError` when either file is missing, then returns the 5-tuple
`(index, texts, metadata, None, None)` where `texts = [m.get("text", "") for
m in metadata]`. -/
def loadFaissIndex {α : Type} (st : RagStore α) :
    Except String (List α × List String × List RMeta × Option Unit × Option Unit) :=
  match st.indexFile with
  | none => Except.error ("Index not found: " ++ st.path)
  | some idx =>
    match st.metaFile with
    | none => Except.error ("Metadata not found: " ++ st.path)
    | some meta => Except.ok (idx, meta.map metaText, meta, none, none)

/-- Python's unpacking of a 5-tuple into a 2-element pattern
(`index, metadata = load_faiss_index(index_path)`): it raises `ValueError`
whatever the intended target shape `γ`, so this is polymorphic in `γ`. -/
def pyUnpack2 {β₁ β₂ β₃ β₄ β₅ γ : Type} (t : β₁ × β₂ × β₃ × β₄ × β₅) : Except String γ :=
  Except.error "too many values to unpack (expected 2)"

/-- `add_documents_to_index` (`src/rag_index.py` lines 467-507): load the
index, unpack the 5-tuple into two variables (which raises `ValueError`
before anything else happens), then — in code that is never reached — embed
the new documents, grow the index, extend the metadata, and write both files.
The store component of the result is the persisted state after the call. -/
def ragAddDocumentsToIndex {α : Type} (f : String → α) (st : RagStore α)
    (newDocs : List RDoc) : Except String Unit × RagStore α :=
  match loadFaissIndex st with
  | Except.error e => (Except.error e, st)
  | Except.ok five =>
    match (pyUnpack2 five : Except String (List α × List RMeta)) with
    | Except.error e => (Except.error e, st)
    | Except.ok im =>
      let texts := newDocs.map (fun d => d.text)
      let newEmbeddings := embedTexts f texts
      let index2 := im.1 ++ newEmbeddings
      let metadata2 := im.2 ++ newDocs.map fun d =>
        RMeta.doc (d.title.getD "Unknown") (d.source.getD "") d.text
      (Except.ok (), { st with indexFile := some index2, metaFile := some metadata2 })

/-! ## Append with normalization and the e.py verification step

`e.py`'s `add_documents_to_index` (lines 1126-1303) normalizes each incoming
document into `(text, metadata)` pairs — Excel workbooks through the external
`_process_excel_doc_to_chunks` parser (whose per-document output is carried in
the document record, since the pandas-based parser is an external
collaborator), everything else through text chunking — and then embeds, grows
the index, extends the metadata and writes both files.  Note that
`from utils import chunk_document_safe` always raises `ImportError`
(`utils.py` defines no such symbol), so the `except` fallback
`_sliding_window_text_simple(doc_text)` is the chunker that actually runs. -/

/-- One chunk produced by the external Excel parser
`_process_excel_doc_to_chunks` for a document. -/
structure ExcelChunk where
  text : String
  ctype : Option String
  title : Option String
  fileName : Option String
  sheetName : Option String
  sheet : Option String
  chunkId : Option Nat

/-- A metadata record appended by `e.add_documents_to_index`: the
`"type": doc.get("type", "document")` shape for plain text pieces, or the
richer sheet/table shape for Excel chunks (row/column counts, headers and CSV
backing bytes ride along in the source dict and are payload only — they do
not influence any claim, so they are not carried here). -/
inductive AMeta where
  | document (dtype title source text : String) (chunkId : Nat)
  | excelTable (ctype : String) (title fileName : Option String) (source : String)
      (sheet : Option String) (text : String) (chunkId : Option Nat)

/-- An incoming document for the append path.  String fields use `""` for a
missing value, matching how Python's `doc.get(...) or ...` chains treat
missing and empty strings alike; `ext` is already lowercased
(`(doc.get("ext") or "").lower()`). -/
structure ADoc where
  source : String
  title : String
  fileName : String
  ext : String
  hasFileBytes : Bool
  hasContentBytes : Bool
  filePath : String
  dtype : Option String
  text : String
  excelChunks : List ExcelChunk

/-- Python `a or b` on strings: the empty string is falsy. -/
def pyOrS (a b : String) : String := if a = "" then b else a

/-- `file_name = doc.get("source") or doc.get("title") or doc.get("file_name")
or "document"`. -/
def docName (d : ADoc) : String := pyOrS d.source (pyOrS d.title (pyOrS d.fileName "document"))

/-- Python `a or b` on optional strings (`c.get("sheet_name") or
c.get("sheet")`). -/
def pyOrOpt (a b : Option String) : Option String :=
  match a with
  | some x => if x = "" then b else some x
  | none => b

def strEndsWithXl (s : String) : Bool := s.endsWith ".xlsx" || s.endsWith ".xls"

/-- The Excel-detection heuristic of `add_documents_to_index`
(lines 1161-1167). -/
def isExcelDoc (d : ADoc) : Bool :=
  (d.ext == ".xlsx" || d.ext == ".xls")
  || strEndsWithXl (docName d).toLower
  || d.hasFileBytes || d.hasContentBytes
  || (!(d.filePath == "") && strEndsWithXl d.filePath.toLower)

/-- `not s.strip()`: true exactly when the string has no non-whitespace
character. -/
def isBlank (s : String) : Bool := s.data.all Char.isWhitespace

/-- `_sliding_window_text_simple(text, size, overlap_chars)` (lines
1144-1151): fixed-size character windows advancing by
`step = max(1, size - overlap_chars)`, stopping after the window that reaches
the end.  The extra fuel argument bounds the loop by the text length; since
`step ≥ 1` the Python loop performs at most `len(text)` iterations, so the
fuel never runs out and the model equals the loop. -/
def swsAux (data : List Char) (size step : Nat) : Nat → Nat → List String
  | 0, _ => []
  | fuel + 1, i =>
    if i < data.length then
      let piece := String.mk ((data.drop i).take size)
      if data.length ≤ i + size then [piece]
      else piece :: swsAux data size step fuel (i + step)
    else []

def slidingWindowTextSimple (text : String) (size overlapChars : Nat) : List String :=
  swsAux text.data size (max 1 (size - overlapChars)) (text.data.length + 1) 0

/-- The `for i, piece in enumerate(doc_chunks)` loop shared by the non-Excel
path (lines 1242-1253) and the Excel text fallback (lines 1188-1199): skip
blank pieces, title each kept piece `"<name> (Part i+1/n)"`. -/
def docPieces (d : ADoc) (pieces : List String) : List (String × AMeta) :=
  pieces.enum.filterMap fun pr =>
    if isBlank pr.2 then none
    else some (pr.2, AMeta.document (d.dtype.getD "document")
      (docName d ++ " (Part " ++ toString (pr.1 + 1) ++ "/" ++ toString pieces.length ++ ")")
      (docName d) pr.2 pr.1)

/-- Normalization of one document (lines 1155-1253): every branch appends to
`new_texts` and `new_metadata` in lockstep, which is what returning pairs
captures. -/
def normalizeDoc (d : ADoc) : List (String × AMeta) :=
  if isExcelDoc d then
    if d.excelChunks.isEmpty then
      if isBlank d.text then []
      else docPieces d (slidingWindowTextSimple d.text 1800 200)
    else
      d.excelChunks.filterMap fun c =>
        if isBlank c.text then none
        else some (c.text, AMeta.excelTable (c.ctype.getD "support_doc_table") c.title
          c.fileName (docName d) (pyOrOpt c.sheetName c.sheet) c.text c.chunkId)
  else
    if isBlank d.text then []
    else docPieces d (slidingWindowTextSimple d.text 1800 200)

/-- The persisted (vector index, metadata) pair `e.add_documents_to_index`
mutates. -/
structure IndexStore (α : Type) where
  index : List α
  meta : List AMeta

/-- `e.add_documents_to_index` (lines 1126-1303), with the checkpointed
embedding helper as the fallible parameter `g`: normalize all documents, stop
untouched when nothing to add or when embedding fails (the checkpoint-file
handling of the failure path is modelled with `build_faiss_index`'s identical
handler below), otherwise `index.add`, `metadata.extend`, and write both
files. -/
def eAddPairs (docs : List ADoc) : List (String × AMeta) :=
  (docs.map normalizeDoc).join

def eAddDocumentsToIndex {α : Type} (g : List String → Except String (List α))
    (st : IndexStore α) (docs : List ADoc) : Except String Unit × IndexStore α :=
  if (eAddPairs docs).map (fun p => p.1) = [] then (Except.ok (), st)
  else
    match g ((eAddPairs docs).map (fun p => p.1)) with
    | Except.error e => (Except.error e, st)
    | Except.ok newEmbeddings =>
      if newEmbeddings.length = 0 then (Except.ok (), st)
      else (Except.ok (), { index := st.index ++ newEmbeddings,
                            meta := st.meta ++ (eAddPairs docs).map (fun p => p.2) })

/-- The verification step of `e.build_faiss_index` (lines 2061-2066, likewise
`test.build_faiss_index` lines 299-304): it reports
"FAISS vectors perfectly match metadata entries" exactly when
`index.ntotal != len(metadata)` is false. -/
def verifyReportsConsistent (ntotal metaLen : Nat) : Bool := !(ntotal != metaLen)

/-- A concrete plain-text document for the C1 witness. -/
def c1Doc : ADoc :=
  { source := "notes.txt", title := "", fileName := "", ext := "",
    hasFileBytes := false, hasContentBytes := false, filePath := "",
    dtype := none, text := "hello world", excelChunks := [] }

def c1Embed : List String → Except String (List Nat) :=
  fun ts => Except.ok (ts.map (fun s => s.data.length))

/-! ## Checkpoint handling of the index build
(`e.build_faiss_index` lines 2012-2033 = `test.build_faiss_index` lines
250-271) -/

/-- Modelled from the spec: `CHECKPOINT_DIR` is referenced by
`build_faiss_index` and `add_documents_to_index` in `e.py`/`test.py` but its
definition is not among the files under `src/`; per spec §4.4 and §6 it is
the directory holding one checkpoint file per in-flight job. -/
def CHECKPOINT_DIR : String := ".rag_checkpoints"

/-- Modelled from the spec: `_embed_texts_with_retry(texts,
checkpoint_path=...)` and `_clear_checkpoint(path)` are called by
`build_faiss_index` but defined outside `src/`.  Per spec §4.3-4.4 the retry
helper creates the checkpoint at job start and appends to it after each
successful batch, so after the call returns — successfully or by raising —
the checkpoint file exists whenever a checkpoint path was supplied; on
success it returns one embedding per input text.  Its observable outcome is
the parameter `outcome`; the returned flag is whether the checkpoint file
exists after the call. -/
def embedWithRetry {α : Type} (ckptPath : Option String)
    (outcome : Except String (List α)) : Except String (List α) × Bool :=
  (outcome, ckptPath.isSome)

/-- Modelled from the spec: `_clear_checkpoint(path)` deletes the checkpoint
file (spec §4.4: "On full job success, the checkpoint is cleared"). -/
def clearCheckpoint (ckptExists : Bool) : Bool := ckptExists && false

/-- Outcome of the embedding phase of `build_faiss_index`: the value or the
re-raised error, whether the checkpoint file exists afterwards, and the
operator-facing messages printed by the `except` handler. -/
structure BuildEmbedOutcome (α : Type) where
  result : Except String (List α)
  ckptExists : Bool
  log : List String

/-- The messages of the `except` handler (lines 2030-2032): printed only when
a checkpoint path was set and the file exists. -/
def ckptLog (ckptPath : Option String) (ckptExists : Bool) : List String :=
  match ckptPath with
  | some path =>
    if ckptExists then
      ["Checkpoint saved at: " ++ path,
       "Run the index build again to resume from checkpoint."]
    else []
  | none => []

/-- The embedding phase of `e.build_faiss_index` (lines 2012-2033; the same
code appears in `test.build_faiss_index` lines 250-271): set the checkpoint
path when checkpointing is enabled; call the retry helper; inside the `try`,
raise `ValueError` if no embeddings came back, else clear the checkpoint; the
`except` handler prints the checkpoint location and the resume hint when the
checkpoint file exists, then re-raises. -/
def buildEmbedPhase {α : Type} (useCheckpoint : Bool)
    (outcome : Except String (List α)) : BuildEmbedOutcome α :=
  let ckptPath : Option String :=
    if useCheckpoint then some (CHECKPOINT_DIR ++ "/build_checkpoint.pkl") else none
  match embedWithRetry ckptPath outcome with
  | (Except.ok embeddings, ck) =>
    if embeddings.length = 0 then
      { result := Except.error "No embeddings generated!", ckptExists := ck,
        log := ckptLog ckptPath ck }
    else
      match ckptPath with
      | some _ => { result := Except.ok embeddings, ckptExists := clearCheckpoint ck, log := [] }
      | none => { result := Except.ok embeddings, ckptExists := ck, log := [] }
  | (Except.error e, ck) =>
    { result := Except.error e, ckptExists := ck, log := ckptLog ckptPath ck }

/-! ## The full chunker dispatch (`utils.sliding_window`, lines 44-104)

To route the C3 counterexample through `sliding_window` itself, the remaining
pieces of `utils.py` are embedded: `_detect_file_type` (substring sniffing),
`_chunk_by_braces_with_tokens` with its method-start regex,
`_chunk_by_sql_blocks_with_tokens` with its `CREATE ...` scanner,
`_split_large_sql_with_tokens`, `_chunk_by_sql_statements_with_tokens`,
`_token_aware_character_chunk` (whose body is line-for-line the same loop as
`_force_split_large_chunk`), `_smart_chunk_with_token_limit`, and
`sliding_window`.  `str.lower()` is ASCII lowering (the sources are ASCII
keyword checks). -/

def startsWithChars : List Char → List Char → Bool
  | [], _ => true
  | _ :: _, [] => false
  | a :: as2, b :: bs => a == b && startsWithChars as2 bs

/-- `needle in hay` for Python strings. -/
def hasSub : List Char → List Char → Bool
  | [], needle => needle.isEmpty
  | c :: rest, needle => startsWithChars needle (c :: rest) || hasSub rest needle

def pyIn (needle hay : String) : Bool := hasSub hay.data needle.data

/-- `text.lower()` (ASCII). -/
def pyLower (s : String) : String := String.mk (s.data.map Char.toLower)

/-- `_detect_file_type` (`src/utils.py` lines 90-103).  Note Python operator
precedence in the SQL line: `'create procedure' in t or ('begin' in t and
'end' in t)`. -/
def detectFileType (text : String) : String :=
  let tl := pyLower text
  if pyIn "public class" tl || pyIn "namespace" tl || pyIn "using system" tl then "csharp"
  else if pyIn "export class" tl || pyIn "import \x7b" tl || pyIn "@component" tl then
    "typescript"
  else if pyIn "function(" tl || pyIn "const " tl || pyIn "var " tl then "javascript"
  else if pyIn "create procedure" tl || (pyIn "begin" tl && pyIn "end" tl) then "sql"
  else "unknown"

/-- Length of the leading whitespace run (`\s*`). -/
def wsCount : List Char → Nat
  | [] => 0
  | c :: cs => if c.isWhitespace then wsCount cs + 1 else 0

/-- Length of the leading `[\w<>]` run. -/
def wordAngleCount : List Char → Nat
  | [] => 0
  | c :: cs => if isWordChar c || c = '<' || c = '>' then wordAngleCount cs + 1 else 0

/-- Length of the leading `\w` run. -/
def wordRunCount : List Char → Nat
  | [] => 0
  | c :: cs => if isWordChar c then wordRunCount cs + 1 else 0

/-- Does the method-start regex
`(public|private|protected|export|async)\s+(class|interface|function|async|[\w<>]+)\s+\w+\s*[({]`
match at this exact position?  Because every `B` alternative is a word run and
is followed by `\s+`, the alternation is equivalent to a non-empty `[\w<>]`
run ending at the run's end; similarly the final `\w+` must exhaust its run
before `\s*[({]`.  Matching is therefore a deterministic token scan. -/
def methodStartAt (cs : List Char) : Bool :=
  ["public", "private", "protected", "export", "async"].any fun lit =>
    startsWithChars lit.data cs &&
    (let r1 := cs.drop lit.data.length
     let w1 := wsCount r1
     decide (1 ≤ w1) &&
     (let r2 := r1.drop w1
      let b := wordAngleCount r2
      decide (1 ≤ b) &&
      (let r3 := r2.drop b
       let w2 := wsCount r3
       decide (1 ≤ w2) &&
       (let r4 := r3.drop w2
        let c3 := wordRunCount r4
        decide (1 ≤ c3) &&
        (let r5 := r4.drop c3
         match r5.drop (wsCount r5) with
         | d :: _ => d == '(' || d == '\x7b'
         | [] => false)))))

/-- `re.search` of the method-start regex: a match starting at any
position. -/
def methodStartSearch : List Char → Bool
  | [] => false
  | c :: rest => methodStartAt (c :: rest) || methodStartSearch rest

def reMethodStart (line : String) : Bool := methodStartSearch line.data

def countChar (s : String) (c : Char) : Nat := s.data.count c

/-- `method_start_depth is not None and brace_depth < method_start_depth`. -/
def msdLt (msd : Option Int) (depth : Int) : Bool :=
  match msd with
  | some m => depth < m
  | none => false

/-- The line loop of `_chunk_by_braces_with_tokens` (`src/utils.py` lines
117-156) plus its final-chunk step (lines 159-165): track brace depth and the
depth of the last seen method start; on token overflow at a safe boundary,
flush (force-splitting chunks above `1.5 × target`) and seed with overlap
lines; always append the line; after appending, force-split unconditionally
when the accumulation exceeds `2 × target`.  `est > target * 1.5` is the
exact integer comparison `2 * est > 3 * target`. -/
def bracesLoop (target overlap : Nat) :
    List String → List String → Nat → Int → Option Int → List String
  | [], cur, _, _, _ =>
    if cur = [] then []
    else
      let ct := pyJoinSep "\n" cur
      if 3 * target < 2 * estimate_tokens ct then forceSplitLargeChunk ct target overlap
      else [ct]
  | line :: rest, cur, tok, depth, msd =>
    let lt := estimate_tokens line
    let depth2 := depth + (countChar line '\x7b' : Int) - (countChar line '\x7d' : Int)
    let msd2 := if reMethodStart line then some depth2 else msd
    let flush : Bool :=
      decide (target < tok + lt) && (depth2 == 0 || msdLt msd2 depth2) && !(cur.isEmpty)
    let emitted :=
      if flush then
        (let ct := pyJoinSep "\n" cur
         if 3 * target < 2 * estimate_tokens ct then forceSplitLargeChunk ct target overlap
         else [ct])
      else []
    let cur2 := (if flush then getOverlapLines cur overlap else cur) ++ [line]
    let tok2 := (if flush then sumTokens (getOverlapLines cur overlap) else tok) + lt
    if 2 * target < tok2 then
      emitted ++ forceSplitLargeChunk (pyJoinSep "\n" cur2) target overlap
        ++ bracesLoop target overlap rest [] 0 depth2 msd2
    else emitted ++ bracesLoop target overlap rest cur2 tok2 depth2 msd2

/-- `_chunk_by_braces_with_tokens` (`src/utils.py` lines 106-167); `None` for
"no chunks" is the empty list here, collapsed with the caller's truthiness
check. -/
def chunkByBracesWithTokens (text : String) (maxChars overlap target : Nat) : List String :=
  bracesLoop target overlap ((pySplitOnNl text.data).map String.mk) [] 0 0 none

/-- Case-insensitive literal prefix (`re.IGNORECASE`); the pattern argument is
already lowercase. -/
def ciPrefix : List Char → List Char → Bool
  | [], _ => true
  | _ :: _, [] => false
  | a :: as2, b :: bs => Char.toLower b == a && ciPrefix as2 bs

/-- Length consumed by `CREATE\s+(?:PROCEDURE|FUNCTION|TRIGGER|VIEW)` at this
position (the lookahead of the SQL scanner), if it matches. -/
def createHeadLen (cs : List Char) : Option Nat :=
  if ciPrefix "create".data cs then
    let r1 := cs.drop 6
    let w := wsCount r1
    if 1 ≤ w then
      let r2 := r1.drop w
      ["procedure", "function", "trigger", "view"].findSome? fun kw =>
        if ciPrefix kw.data r2 then some (6 + w + kw.data.length) else none
    else none
  else none

/-- Length consumed by `CREATE\s+(?:...)\s+` — the head of the main match,
which also requires whitespace after the keyword. -/
def mainHeadLen (cs : List Char) : Option Nat :=
  match createHeadLen cs with
  | some n =>
    let w := wsCount (cs.drop n)
    if 1 ≤ w then some (n + w) else none
  | none => none

/-- `$` without `re.MULTILINE`: end of string, or just before a final
newline. -/
def atDollar (cs : List Char) : Bool := cs.isEmpty || cs == ['\n']

/-- The lazy `.*?(?=CREATE\s+(?:...)|$)` (with `re.DOTALL`): consume
characters until the first position where the lookahead (or `$`) holds;
returns (consumed, remainder).  Since `$` always holds at the end of the
string, the scan always stops. -/
def lazyScan : List Char → List Char × List Char
  | [] => ([], [])
  | c :: rest =>
    if (createHeadLen (c :: rest)).isSome || atDollar (c :: rest) then ([], c :: rest)
    else
      let p := lazyScan rest
      (c :: p.1, p.2)

/-- `re.findall` of the procedure pattern of `_chunk_by_sql_blocks_with_tokens`
(`src/utils.py` line 177): scan left to right; at each match head, extend
lazily to the next `CREATE` head or to `$`; matches do not overlap.  The fuel
starts at `length + 1` and each step consumes at least one character, so it
never runs out. -/
def sqlFindAllAux : Nat → List Char → List (List Char)
  | 0, _ => []
  | _ + 1, [] => []
  | fuel + 1, c :: rest =>
    match mainHeadLen (c :: rest) with
    | some h =>
      let p := lazyScan ((c :: rest).drop h)
      ((c :: rest).take h ++ p.1) :: sqlFindAllAux fuel p.2
    | none => sqlFindAllAux fuel rest

def sqlFindAll (text : String) : List String :=
  (sqlFindAllAux (text.data.length + 1) text.data).map String.mk

/-- `re.search(r'\bWORD\b', line, re.IGNORECASE)` for an all-word-character
`WORD` (given lowercase): a case-insensitive occurrence with no word
character on either side.  `prev` is the character before the current
position. -/
def hasWordCIAux (w : List Char) : List Char → Option Char → Bool
  | [], _ => false
  | c :: rest, prev =>
    (ciPrefix w (c :: rest)
      && (match prev with
          | some p => !isWordChar p
          | none => true)
      && (match (c :: rest).drop w.length with
          | d :: _ => !isWordChar d
          | [] => true))
    || hasWordCIAux w rest (some c)

def hasWordCI (w : String) (line : String) : Bool := hasWordCIAux w.data line.data none

/-- The line loop of `_split_large_sql_with_tokens` (`src/utils.py` lines
197-227): track `BEGIN`/`END` depth; flush at token overflow only at depth 0,
seeding the next chunk with overlap lines. -/
def sqlSplitAux (target overlap : Nat) :
    List String → List String → Nat → Int → List (List String)
  | [], cur, _, _ => if cur = [] then [] else [cur]
  | l :: ls, cur, tok, depth =>
    let lt := estimate_tokens l
    let depth2 := depth + (if hasWordCI "begin" l then 1 else 0)
      - (if hasWordCI "end" l then 1 else 0)
    if target < tok + lt ∧ depth2 = 0 ∧ cur ≠ [] then
      let seed := getOverlapLines cur overlap
      cur :: sqlSplitAux target overlap ls (seed ++ [l]) (sumTokens seed + lt) depth2
    else sqlSplitAux target overlap ls (cur ++ [l]) (tok + lt) depth2

def splitLargeSqlWithTokens (proc : String) (target overlap : Nat) : List String :=
  (sqlSplitAux target overlap ((pySplitOnNl proc.data).map String.mk) [] 0 0).map
    (pyJoinSep "\n")

/-- `text.split(';')`. -/
def pySplitOnSemi : List Char → List (List Char)
  | [] => [[]]
  | c :: cs =>
    if c = ';' then [] :: pySplitOnSemi cs
    else
      match pySplitOnSemi cs with
      | [] => [[c]]
      | w :: ws => (c :: w) :: ws

/-- `s.strip()`. -/
def pyStrip (s : String) : String :=
  String.mk (((s.data.dropWhile Char.isWhitespace).reverse.dropWhile
    Char.isWhitespace).reverse)

/-- The statement loop of `_chunk_by_sql_statements_with_tokens`
(`src/utils.py` lines 237-254): strip each statement, skip empties, flush on
token overflow with no overlap seeding. -/
def sqlStmtsAux (target : Nat) : List String → List String → Nat → List (List String)
  | [], cur, _ => if cur = [] then [] else [cur]
  | s :: ss, cur, tok =>
    let st := pyStrip s
    if st = "" then sqlStmtsAux target ss cur tok
    else
      let stok := estimate_tokens st
      if target < tok + stok ∧ cur ≠ [] then
        cur :: sqlStmtsAux target ss [st] stok
      else sqlStmtsAux target ss (cur ++ [st]) (tok + stok)

def chunkBySqlStatementsWithTokens (text : String) (target overlap : Nat) : List String :=
  (sqlStmtsAux target ((pySplitOnSemi text.data).map String.mk) [] 0).map
    (fun g => pyJoinSep ";\n" g ++ ";")

/-- `_chunk_by_sql_blocks_with_tokens` (`src/utils.py` lines 170-194). -/
def chunkBySqlBlocksWithTokens (text : String) (maxChars overlap target : Nat) : List String :=
  let procedures := sqlFindAll text
  if procedures = [] then chunkBySqlStatementsWithTokens text target overlap
  else
    (procedures.map fun proc =>
      if estimate_tokens proc ≤ target then [proc]
      else splitLargeSqlWithTokens proc target overlap).join

/-- `_token_aware_character_chunk` (`src/utils.py` lines 329-354): its body is
line-for-line the same accumulation loop as `_force_split_large_chunk`, so it
shares `forceSplitAux`. -/
def tokenAwareCharacterChunk (text : String) (target overlap : Nat) : List String :=
  (forceSplitAux target overlap ((pySplitOnNl text.data).map String.mk) [] 0).map
    (pyJoinSep "\n")

/-- `_smart_chunk_with_token_limit` (`src/utils.py` lines 71-87). -/
def smartChunkWithTokenLimit (text : String) (maxChars overlap targetTokens : Nat) :
    List String :=
  let ft := detectFileType text
  if ft = "csharp" ∨ ft = "typescript" ∨ ft = "javascript" then
    chunkByBracesWithTokens text maxChars overlap targetTokens
  else if ft = "sql" then chunkBySqlBlocksWithTokens text maxChars overlap targetTokens
  else chunkByParagraphsWithTokens text maxChars overlap targetTokens

def TARGET_TOKENS : Nat := 500

/-- `sliding_window` (`src/utils.py` lines 44-68): empty text gives no chunks;
text within `TARGET_TOKENS = 500` is one chunk; otherwise the smart chunker
runs and, if it produced nothing (`None` or `[]`, both falsy), the
token-aware character chunker is the fallback. -/
def sliding_window (text : String) (maxChars overlap : Nat) : List String :=
  if text.data.length = 0 then []
  else if estimate_tokens text ≤ TARGET_TOKENS then [text]
  else
    let smartChunks := smartChunkWithTokenLimit text maxChars overlap TARGET_TOKENS
    if smartChunks = [] then tokenAwareCharacterChunk text TARGET_TOKENS overlap
    else smartChunks

/-! ## Theorems -/

theorem takePrefix_data (s : String) (n : Nat) :
    (takePrefix s n).data = s.data.take n := rfl

/-- C7 (counterexample): at `text = "a a"` and `budget = 1` the text is
returned unchanged (3 characters ≤ 4), yet its estimated token count is
`max(int(2 * 1.3), int(3 / 4)) = 2 > 1`, so the claim that the returned
string's estimated token count never exceeds the budget is false. -/
theorem c7_counterexample :
    ¬ (estimate_tokens (truncate_to_tokens "a a" 1) ≤ 1) := by decide

/-- C7 (amended): `truncate_to_tokens` either returns the text unchanged — and
then the text has at most `4 * budget` characters — or returns a character
prefix of the text of length at most `4 * budget` followed by the visible
marker `"\n... [truncated]"`; in the latter case the character-based token
estimate `len(prefix) / 4` of the kept prefix is at most the budget.  (The
word-based part of `estimate_tokens` may still exceed the budget, as the
counterexample shows, and the appended marker adds further characters.) -/
theorem c7_truncate_prefix (s : String) (budget : Nat) :
    (truncate_to_tokens s budget = s ∧ s.data.length ≤ 4 * budget)
    ∨ (∃ k, k ≤ 4 * budget ∧
        (truncate_to_tokens s budget).data =
          s.data.take k ++ ("\n... [truncated]").data ∧
        k / 4 ≤ budget) := by
  unfold truncate_to_tokens
  by_cases h : s.data.length ≤ budget * 4
  · left
    simp [h]
    have hlen : s.length = s.data.length := rfl
    omega
  · right
    simp only [h, if_false]
    by_cases hnl : 10 * pyRfind (takePrefix s (budget * 4)) '\n' > 8 * ((budget * 4 : Nat) : Int)
    · refine ⟨min (pyRfind (takePrefix s (budget * 4)) '\n').toNat (budget * 4), ?_, ?_, ?_⟩
      · exact le_trans (Nat.min_le_right _ _) (by omega)
      · simp only [hnl, if_true]
        rw [String.data_append, takePrefix_data, takePrefix_data, List.take_take]
      · have : min (pyRfind (takePrefix s (budget * 4)) '\n').toNat (budget * 4) ≤ budget * 4 :=
          Nat.min_le_right _ _
        omega
    · refine ⟨budget * 4, by omega, ?_, by omega⟩
      simp only [hnl, if_false]
      rw [String.data_append, takePrefix_data]

theorem sumTokens_nil : sumTokens [] = 0 := rfl

theorem sumTokens_singleton (p : String) : sumTokens [p] = estimate_tokens p := by
  simp [sumTokens]

theorem sumTokens_append_singleton (l : List String) (p : String) :
    sumTokens (l ++ [p]) = sumTokens l + estimate_tokens p := by
  simp [sumTokens]

theorem splitParasAux_no_newline (cs : List Char) :
    ∀ acc, (∀ c ∈ cs, c ≠ '\n') → splitParasAux cs acc = [acc ++ cs] := by
  induction cs with
  | nil => intro acc _; simp [splitParasAux]
  | cons c cs ih =>
    intro acc h
    have hc : c ≠ '\n' := h c (List.mem_cons_self c cs)
    rw [splitParasAux, if_neg hc, ih (acc ++ [c]) (fun x hx => h x (List.mem_cons_of_mem c hx))]
    simp

theorem pySplitOnNl_no_newline (cs : List Char) (h : ∀ c ∈ cs, c ≠ '\n') :
    pySplitOnNl cs = [cs] := by
  induction cs with
  | nil => rfl
  | cons c cs ih =>
    have hc : c ≠ '\n' := h c (List.mem_cons_self c cs)
    rw [pySplitOnNl, if_neg hc, ih (fun x hx => h x (List.mem_cons_of_mem c hx))]

/-- A document with no newline at all forms a single paragraph, and the
paragraph loop returns it as the single chunk, whatever its size: the
paragraph strategy has no forced-split step. -/
theorem chunkByParagraphs_no_newline (text : String) (h : ∀ c ∈ text.data, c ≠ '\n')
    (maxChars overlap target : Nat) :
    chunkByParagraphsWithTokens text maxChars overlap target = [text] := by
  unfold chunkByParagraphsWithTokens pySplitParagraphs
  rw [splitParasAux_no_newline text.data [] h]
  simp only [List.nil_append, List.map_cons, List.map_nil]
  have hmk : String.mk text.data = text := rfl
  rw [hmk]
  rw [paraGroupsAux, if_neg (by simp)]
  rw [paraGroupsAux, if_neg (by simp)]
  simp [pyJoinSep]

/-- Even the forced line-based splitter returns a newline-free text as one
single chunk: its unit of splitting is the line. -/
theorem forceSplit_no_newline (text : String) (h : ∀ c ∈ text.data, c ≠ '\n')
    (target overlap : Nat) :
    forceSplitLargeChunk text target overlap = [text] := by
  unfold forceSplitLargeChunk
  rw [pySplitOnNl_no_newline text.data h]
  simp only [List.map_cons, List.map_nil]
  have hmk : String.mk text.data = text := rfl
  rw [hmk]
  rw [forceSplitAux, if_neg (by simp)]
  rw [forceSplitAux, if_neg (by simp)]
  simp [pyJoinSep]

theorem countWordsAux_replicate_true (c : Char) (hc : c.isWhitespace = false) :
    ∀ n, countWordsAux (List.replicate n c) true = 0 := by
  intro n
  induction n with
  | zero => rfl
  | succ n ih => rw [List.replicate_succ, countWordsAux, if_neg (by simp [hc])]; simpa using ih

theorem countWordsAux_replicate_false (c : Char) (hc : c.isWhitespace = false)
    (n : Nat) (hn : 0 < n) : countWordsAux (List.replicate n c) false = 1 := by
  cases n with
  | zero => omega
  | succ n =>
    rw [List.replicate_succ, countWordsAux, if_neg (by simp [hc])]
    rw [countWordsAux_replicate_true c hc n]
    simp

theorem estimate_tokens_replicate_a (n : Nat) (hn : 0 < n) :
    estimate_tokens (String.mk (List.replicate n 'a')) = max (13 / 10) (n / 4) := by
  unfold estimate_tokens pyWordCount
  have hdata : (String.mk (List.replicate n 'a')).data = List.replicate n 'a' := rfl
  rw [hdata, countWordsAux_replicate_false 'a' (by decide) n hn, List.length_replicate]

theorem c3Text_no_newline : ∀ c ∈ c3Text.data, c ≠ '\n' := by
  intro c hc
  have : c = 'a' := (List.eq_of_mem_replicate (by exact hc))
  simp [this]

theorem paraGroupsAux_join (target : Nat) (ps : List String) :
    ∀ cur tok, (paraGroupsAux target ps cur tok).join = cur ++ ps := by
  induction ps with
  | nil =>
    intro cur tok
    by_cases hc : cur = []
    · simp [paraGroupsAux, hc]
    · simp [paraGroupsAux, hc]
  | cons p ps ih =>
    intro cur tok
    rw [paraGroupsAux]
    by_cases hcond : target < tok + estimate_tokens p ∧ cur ≠ []
    · rw [if_pos hcond]
      simp only [List.join_cons, ih]
      simp
    · rw [if_neg hcond, ih]
      simp

theorem paraGroupsAux_bound (target : Nat) (ps : List String) :
    ∀ cur tok, tok = sumTokens cur → (2 ≤ cur.length → tok ≤ target) →
      ∀ g ∈ paraGroupsAux target ps cur tok,
        g ≠ [] ∧ (2 ≤ g.length → sumTokens g ≤ target) := by
  induction ps with
  | nil =>
    intro cur tok htok hbound g hg
    by_cases hc : cur = []
    · simp [paraGroupsAux, hc] at hg
    · simp only [paraGroupsAux, if_neg hc, List.mem_singleton] at hg
      subst hg
      exact ⟨hc, fun h2 => htok ▸ hbound h2⟩
  | cons p ps ih =>
    intro cur tok htok hbound g hg
    rw [paraGroupsAux] at hg
    by_cases hcond : target < tok + estimate_tokens p ∧ cur ≠ []
    · rw [if_pos hcond] at hg
      rcases List.mem_cons.mp hg with hg | hg
      · subst hg
        exact ⟨hcond.2, fun h2 => htok ▸ hbound h2⟩
      · exact ih [p] (estimate_tokens p) (by simp [sumTokens_singleton]) (by simp) g hg
    · rw [if_neg hcond] at hg
      refine ih (cur ++ [p]) (tok + estimate_tokens p) ?_ ?_ g hg
      · rw [htok, sumTokens_append_singleton]
      · intro h2
        by_cases hc : cur = []
        · subst hc; simp at h2
        · exact le_of_not_lt (fun hlt => hcond ⟨hlt, hc⟩)

/-- C3 (amended): the `2 × target_tokens` bound does not hold for the chunks
the paragraph strategy produces — an oversized single paragraph is emitted
whole (see the counterexample).  What the accumulation loop of
`_chunk_by_paragraphs_with_tokens` does guarantee is: the produced chunks are
exactly the `'\n\n'`-joins of a partition of the paragraph list into
consecutive non-empty groups, and every group that contains two or more
paragraphs has accumulated estimated token sum (the loop's own
`current_tokens` bookkeeping) at most `target_tokens`; only a chunk that is a
single oversized paragraph can exceed the budget. -/
theorem c3_paragraph_chunks (text : String) (maxChars overlap target : Nat) :
    chunkByParagraphsWithTokens text maxChars overlap target =
      (paraGroupsAux target (pySplitParagraphs text) [] 0).map (pyJoinSep "\n\n")
    ∧ (paraGroupsAux target (pySplitParagraphs text) [] 0).join = pySplitParagraphs text
    ∧ ∀ g ∈ paraGroupsAux target (pySplitParagraphs text) [] 0,
        g ≠ [] ∧ (2 ≤ g.length → sumTokens g ≤ target) :=
  ⟨rfl, by simpa using paraGroupsAux_join target (pySplitParagraphs text) [] 0,
    paraGroupsAux_bound target (pySplitParagraphs text) [] 0 rfl (by simp)⟩

theorem c4Line_no_newline : ∀ c ∈ c4Line.data, c ≠ '\n' := by
  intro c hc
  have : c = 'a' := List.eq_of_mem_replicate (by exact hc)
  simp [this]

/-- C4 (counterexample): chunking the single 10,000-character line with
`target_tokens = 100` yields exactly one chunk, not "more than one chunk via
the forced line-based split path": the paragraph strategy that handles
structureless text never invokes `_force_split_large_chunk`, and the line —
being a single paragraph — is returned whole. -/
theorem c4_counterexample :
    ¬ (1 < (chunkByParagraphsWithTokens c4Line 1800 200 100).length) := by
  rw [chunkByParagraphs_no_newline c4Line c4Line_no_newline 1800 200 100]
  simp

/-- C4 (amended): chunking the 10,000-character single line with
`target_tokens = 100` terminates (the embedded chunkers are total functions;
each Python loop is a structural recursion over its input) and returns the
whole line as one single chunk; the forced line-based split is not invoked by
the paragraph path, and even calling `_force_split_large_chunk` directly on
this input returns the single line whole, since its splitting unit is the
line. -/
theorem c4_single_line_one_chunk :
    chunkByParagraphsWithTokens c4Line 1800 200 100 = [c4Line]
    ∧ forceSplitLargeChunk c4Line 100 200 = [c4Line] :=
  ⟨chunkByParagraphs_no_newline c4Line c4Line_no_newline 1800 200 100,
    forceSplit_no_newline c4Line c4Line_no_newline 100 200⟩

theorem embedLoop_eq {α : Type} (f : String → α) (ts : List String) :
    ∀ cur tok, embedLoop f ts cur tok = cur.map f ++ ts.map (fun t => f (preprocessText t)) := by
  induction ts with
  | nil => intro cur tok; simp [embedLoop]
  | cons t ts ih =>
    intro cur tok
    rw [embedLoop]
    by_cases hcond : MAX_TOKENS_PER_BATCH < tok + estimate_tokens (preprocessText t) ∧ cur ≠ []
    · rw [if_pos hcond, ih]
      simp
    · rw [if_neg hcond, ih]
      simp

/-- `_embed_texts` never drops or duplicates: one output vector per input
text, in input order; the `i`-th output is the provider's embedding of the
`i`-th (preprocessed) input, independent of where the batch boundaries fall. -/
theorem embedTexts_eq_map {α : Type} (f : String → α) (texts : List String) :
    embedTexts f texts = texts.map (fun t => f (preprocessText t)) := by
  unfold embedTexts
  by_cases h : texts = []
  · simp [h]
  · rw [if_neg h, embedLoop_eq]
    simp

/-- C2: for every list of input texts whose members do not exceed the
single-text token cap (so that the lossy truncation step does not rewrite
them), `_embed_texts` returns exactly the provider's embedding of each input
text, in input order, regardless of how the loop grouped the texts into
batches — assuming the provider returns one vector per input in request
order, which is how the provider call is modelled. -/
theorem c2_embed_order {α : Type} (f : String → α) (texts : List String)
    (h : ∀ t ∈ texts, estimate_tokens t ≤ MAX_TOKENS_PER_TEXT) :
    embedTexts f texts = texts.map f := by
  rw [embedTexts_eq_map]
  exact List.map_congr_left fun t ht => by
    unfold preprocessText
    rw [if_neg (by exact not_lt.mpr (h t ht))]

/-- C2 (witness): a concrete run of the batching loop on two short texts. -/
theorem c2_embed_order_witness :
    embedTexts (fun s => s.data.length) ["ab", "cde"] = [2, 3] :=
  (c2_embed_order (fun s => s.data.length) ["ab", "cde"] (by decide)).trans (by decide)

theorem mem_insertDesc (score : Int → ℚ) (x a : Int) (l : List Int) :
    a ∈ insertDesc score x l ↔ a = x ∨ a ∈ l := by
  induction l with
  | nil => simp [insertDesc]
  | cons y ys ih =>
    rw [insertDesc]
    by_cases h : score x < score y
    · rw [if_pos h]
      simp [ih]
      tauto
    · rw [if_neg h]
      simp

theorem insertDesc_perm (score : Int → ℚ) (x : Int) (l : List Int) :
    (insertDesc score x l).Perm (x :: l) := by
  induction l with
  | nil => exact List.Perm.refl _
  | cons y ys ih =>
    rw [insertDesc]
    by_cases h : score x < score y
    · rw [if_pos h]
      exact (ih.cons y).trans (List.Perm.swap x y ys)
    · rw [if_neg h]

theorem stableSortDesc_perm (score : Int → ℚ) (l : List Int) :
    (stableSortDesc score l).Perm l := by
  induction l with
  | nil => exact List.Perm.refl _
  | cons x xs ih =>
    exact (insertDesc_perm score x (stableSortDesc score xs)).trans (ih.cons x)

theorem pairwise_insertDesc (score : Int → ℚ) (x : Int) (l : List Int)
    (h : l.Pairwise (fun a b => score b ≤ score a)) :
    (insertDesc score x l).Pairwise (fun a b => score b ≤ score a) := by
  induction l with
  | nil => simp [insertDesc]
  | cons y ys ih =>
    rw [insertDesc]
    rcases List.pairwise_cons.mp h with ⟨hy, hys⟩
    by_cases hlt : score x < score y
    · rw [if_pos hlt]
      refine List.pairwise_cons.mpr ⟨?_, ih hys⟩
      intro z hz
      rcases (mem_insertDesc score x z ys).mp hz with hz | hz
      · exact hz ▸ le_of_lt hlt
      · exact hy z hz
    · rw [if_neg hlt]
      refine List.pairwise_cons.mpr ⟨?_, h⟩
      intro z hz
      rcases List.mem_cons.mp hz with hz | hz
      · exact hz ▸ not_lt.mp hlt
      · exact le_trans (hy z hz) (not_lt.mp hlt)

theorem stableSortDesc_pairwise (score : Int → ℚ) (l : List Int) :
    (stableSortDesc score l).Pairwise (fun a b => score b ≤ score a) := by
  induction l with
  | nil => simp [stableSortDesc]
  | cons x xs ih => exact pairwise_insertDesc score x (stableSortDesc score xs) ih

theorem filter_insertDesc_pos (score : Int → ℚ) (p : Int → Bool) (x : Int) (l : List Int)
    (hp : p x = true) (h : ∀ y, score x < score y → p y = false) :
    (insertDesc score x l).filter p = x :: l.filter p := by
  induction l with
  | nil => simp [insertDesc, hp]
  | cons y ys ih =>
    rw [insertDesc]
    by_cases hlt : score x < score y
    · rw [if_pos hlt]
      rw [List.filter_cons, List.filter_cons, h y hlt]
      simpa using ih
    · rw [if_neg hlt, List.filter_cons, hp]
      simp

theorem filter_insertDesc_neg (score : Int → ℚ) (p : Int → Bool) (x : Int) (l : List Int)
    (hp : p x = false) :
    (insertDesc score x l).filter p = l.filter p := by
  induction l with
  | nil => simp [insertDesc, hp]
  | cons y ys ih =>
    rw [insertDesc]
    by_cases hlt : score x < score y
    · rw [if_pos hlt]
      rw [List.filter_cons, List.filter_cons]
      cases hpy : p y <;> simp [hpy, ih]
    · rw [if_neg hlt, List.filter_cons, hp]
      simp [List.filter_cons]

/-- Stability of the model of Python's `sorted(..., reverse=True)`: for every
score value `s`, the keys with fused score `s` appear in the sorted output in
exactly their original (dict insertion) order. -/
theorem stableSortDesc_filter_score (score : Int → ℚ) (l : List Int) (s : ℚ) :
    (stableSortDesc score l).filter (fun a => score a == s) =
      l.filter (fun a => score a == s) := by
  induction l with
  | nil => simp [stableSortDesc]
  | cons x xs ih =>
    rw [stableSortDesc]
    by_cases hx : score x = s
    · rw [filter_insertDesc_pos score _ x _ (by simp [hx]) ?_]
      · rw [ih, List.filter_cons]
        simp [hx]
      · intro y hy
        simp only [beq_eq_false_iff_ne]
        intro hys
        rw [hx, hys] at hy
        exact lt_irrefl s hy
    · rw [filter_insertDesc_neg score _ x _ (by simp [hx]), ih, List.filter_cons]
      simp [hx]

theorem dkeys_dset (d : Dict) (k : Int) (v : ℚ) :
    dkeys (dset d k v) = if dmem d k then dkeys d else dkeys d ++ [k] := by
  unfold dset
  by_cases h : dmem d k
  · rw [if_pos h, if_pos h]
    unfold dkeys
    rw [List.map_map]
    refine List.map_congr_left fun p _ => ?_
    by_cases hp : p.1 == k
    · simp only [Function.comp_apply, hp, if_pos]
      exact (eq_of_beq hp).symm
    · have hne : p.1 ≠ k := by simpa using hp
      simp [Function.comp_apply, hne]
  · rw [if_neg h, if_neg h]
    simp [dkeys]

theorem mem_dkeys_dset (d : Dict) (k a : Int) (v : ℚ) (h : a ∈ dkeys (dset d k v)) :
    a = k ∨ a ∈ dkeys d := by
  rw [dkeys_dset] at h
  by_cases hm : dmem d k
  · rw [if_pos hm] at h; exact Or.inr h
  · rw [if_neg hm] at h
    rcases List.mem_append.mp h with h | h
    · exact Or.inr h
    · exact Or.inl (List.mem_singleton.mp h)

theorem nodup_dkeys_dset (d : Dict) (k : Int) (v : ℚ) (h : (dkeys d).Nodup) :
    (dkeys (dset d k v)).Nodup := by
  rw [dkeys_dset]
  by_cases hm : dmem d k
  · rwa [if_pos hm]
  · rw [if_neg hm]
    have hk : k ∉ dkeys d := by
      intro hk
      exact hm (List.any_eq_true.mpr (by
        rcases List.mem_map.mp hk with ⟨p, hp, hpk⟩
        exact ⟨p, hp, by simp [hpk]⟩))
    simpa [List.nodup_append] using ⟨h, hk⟩

theorem mem_dkeys_semLoop (metaLen : Nat) (cands : List (ℚ × Int)) :
    ∀ d a, a ∈ dkeys (semLoop metaLen cands d) →
      a ∈ dkeys d ∨ (a < (metaLen : Int) ∧ ∃ q, (q, a) ∈ cands) := by
  induction cands with
  | nil => intro d a h; exact Or.inl h
  | cons c rest ih =>
    intro d a h
    obtain ⟨dist, idx⟩ := c
    rw [semLoop] at h
    rcases ih _ a h with h2 | h2
    · by_cases hidx : idx < (metaLen : Int)
      · rw [if_pos hidx] at h2
        rcases mem_dkeys_dset _ _ _ _ h2 with h3 | h3
        · exact Or.inr ⟨h3 ▸ hidx, dist, h3 ▸ List.mem_cons_self _ _⟩
        · exact Or.inl h3
      · rw [if_neg hidx] at h2
        exact Or.inl h2
    · exact Or.inr ⟨h2.1, h2.2.choose, List.mem_cons_of_mem _ h2.2.choose_spec⟩

theorem mem_dkeys_bmLoop (ss : List ℚ) :
    ∀ i d a, a ∈ dkeys (bmLoop i ss d) →
      a ∈ dkeys d ∨ ∃ j, j < ss.length ∧ a = ((i + j : Nat) : Int) := by
  induction ss with
  | nil => intro i d a h; exact Or.inl h
  | cons s rest ih =>
    intro i d a h
    rw [bmLoop] at h
    have step : ∀ w, a ∈ dkeys (dset d (i : Int) w) →
        a ∈ dkeys d ∨ ∃ j, j < (s :: rest).length ∧ a = ((i + j : Nat) : Int) := by
      intro w hw
      rcases mem_dkeys_dset _ _ _ _ hw with h3 | h3
      · exact Or.inr ⟨0, by simp, by simp [h3]⟩
      · exact Or.inl h3
    by_cases hm : dmem d (i : Int)
    · rw [if_pos hm] at h
      rcases ih (i + 1) _ a h with h2 | h2
      · exact step _ h2
      · obtain ⟨j, hj, ha⟩ := h2
        exact Or.inr ⟨j + 1, by simpa using Nat.succ_lt_succ hj, by
          rw [ha]; congr 1; omega⟩
    · rw [if_neg hm] at h
      rcases ih (i + 1) _ a h with h2 | h2
      · exact step _ h2
      · obtain ⟨j, hj, ha⟩ := h2
        exact Or.inr ⟨j + 1, by simpa using Nat.succ_lt_succ hj, by
          rw [ha]; congr 1; omega⟩

theorem nodup_dkeys_semLoop (metaLen : Nat) (cands : List (ℚ × Int)) :
    ∀ d, (dkeys d).Nodup → (dkeys (semLoop metaLen cands d)).Nodup := by
  induction cands with
  | nil => intro d h; exact h
  | cons c rest ih =>
    intro d h
    obtain ⟨dist, idx⟩ := c
    rw [semLoop]
    by_cases hidx : idx < (metaLen : Int)
    · rw [if_pos hidx]
      exact ih _ (nodup_dkeys_dset _ _ _ h)
    · rw [if_neg hidx]
      exact ih _ h

theorem nodup_dkeys_bmLoop (ss : List ℚ) :
    ∀ i d, (dkeys d).Nodup → (dkeys (bmLoop i ss d)).Nodup := by
  induction ss with
  | nil => intro i d h; exact h
  | cons s rest ih =>
    intro i d h
    rw [bmLoop]
    by_cases hm : dmem d (i : Int)
    · rw [if_pos hm]; exact ih _ _ (nodup_dkeys_dset _ _ _ h)
    · rw [if_neg hm]; exact ih _ _ (nodup_dkeys_dset _ _ _ h)

theorem nodup_dkeys_fusedDict (cands : List (ℚ × Int)) (bmScores : List ℚ) (metaLen : Nat) :
    (dkeys (fusedDict cands bmScores metaLen)).Nodup :=
  nodup_dkeys_bmLoop bmScores 0 _ (nodup_dkeys_semLoop metaLen cands [] (by simp [dkeys]))

/-- Every key of the fused dictionary with non-negative FAISS candidates and a
full-length BM25 array lies in `[0, metaLen)`. -/
theorem mem_dkeys_fusedDict (cands : List (ℚ × Int)) (bmScores : List ℚ) (metaLen : Nat)
    (hidx : ∀ p ∈ cands, 0 ≤ p.2) (hbm : bmScores.length = metaLen) :
    ∀ a ∈ dkeys (fusedDict cands bmScores metaLen), 0 ≤ a ∧ a < (metaLen : Int) := by
  intro a ha
  rcases mem_dkeys_bmLoop bmScores 0 _ a ha with h | h
  · rcases mem_dkeys_semLoop metaLen cands [] a h with h2 | h2
    · simp [dkeys] at h2
    · obtain ⟨hlt, q, hq⟩ := h2
      exact ⟨hidx (q, a) hq, hlt⟩
  · obtain ⟨j, hj, haj⟩ := h
    constructor
    · rw [haj]; exact Int.ofNat_nonneg _
    · rw [haj, hbm] at *
      exact_mod_cast by omega

theorem buildResultsAux_map_pos (score : Int → ℚ) :
    ∀ rank l, (buildResultsAux score rank l).map (fun r => r.pos) = l := by
  intro rank l
  induction l generalizing rank with
  | nil => rfl
  | cons k ks ih => simp [buildResultsAux, ih]

theorem buildResultsAux_length (score : Int → ℚ) :
    ∀ rank l, (buildResultsAux score rank l).length = l.length := by
  intro rank l
  induction l generalizing rank with
  | nil => rfl
  | cons k ks ih => simp [buildResultsAux, ih]

theorem buildResultsAux_rank (score : Int → ℚ) :
    ∀ l rank i r, (buildResultsAux score rank l).get? i = some r → r.rank = rank + i + 1 := by
  intro l
  induction l with
  | nil => intro rank i r h; simp [buildResultsAux] at h
  | cons k ks ih =>
    intro rank i r h
    cases i with
    | zero =>
      rw [buildResultsAux] at h
      simp only [List.get?_cons_zero, Option.some.injEq] at h
      subst h
      simp
    | succ i =>
      rw [buildResultsAux] at h
      simp only [List.get?_cons_succ] at h
      have := ih (rank + 1) i r h
      omega

theorem buildResultsAux_pairwise (score : Int → ℚ) :
    ∀ rank l, l.Pairwise (fun a b => score b ≤ score a) →
      (buildResultsAux score rank l).Pairwise (fun r t => t.score ≤ r.score) := by
  intro rank l
  induction l generalizing rank with
  | nil => intro _; simp [buildResultsAux]
  | cons k ks ih =>
    intro h
    rcases List.pairwise_cons.mp h with ⟨hk, hks⟩
    rw [buildResultsAux]
    refine List.pairwise_cons.mpr ⟨?_, ih (rank + 1) hks⟩
    intro t ht
    have hmem : t.pos ∈ ks := by
      have := buildResultsAux_map_pos score (rank + 1) ks
      rw [← this]
      exact List.mem_map.mpr ⟨t, ht, rfl⟩
    have hscore : t.score = score t.pos := by
      clear hmem hk hks h ih
      induction ks generalizing rank with
      | nil => simp [buildResultsAux] at ht
      | cons k2 ks2 ih2 =>
        rw [buildResultsAux] at ht
        rcases List.mem_cons.mp ht with h2 | h2
        · rw [h2]
        · exact ih2 _ h2
    rw [hscore]
    exact hk t.pos hmem

/-- C5 (counterexample): with a provider whose query-embedding call raises,
`semantic_search` on a one-document corpus returns the error instead of a
BM25-only ranking — the `client.embeddings.create` call at line 433 has no
exception handler. -/
theorem c5_counterexample :
    semanticSearch (fun _ _ => []) (fun _ => Except.error "embedding provider unavailable")
      (fun _ _ => []) ["JWT authentication middleware"] "user authentication" 5 =
      Except.error "embedding provider unavailable" := rfl

/-- C5 (amended): whenever embedding the query fails, `semantic_search`
propagates the failure to the caller unchanged; no result list is produced
and the BM25 scorer is never consulted.  There is no lexical-only fallback in
the code. -/
theorem c5_embed_error_propagates
    (scorer : List (List String) → List String → List ℚ)
    (searchFn : List ℚ → Nat → List (ℚ × Int))
    (metaTexts : List String) (queryText : String) (topK : Nat) (e : String) :
    semanticSearch scorer (fun _ => Except.error e) searchFn metaTexts queryText topK =
      Except.error e := rfl

/-- C6 (counterexample): with the candidates `c6Cands` and lexical scores
`c6Bm`, the ranked results are positions `[2, 1, 0]` with scores
`[1000000/500001, 1, 1]`: the results of rank 2 and rank 3 have equal fused
scores, yet position `1` (inserted into `sem_results` by the FAISS loop)
precedes position `0` (inserted later by the BM25 loop) — ties follow dict
insertion order, not original corpus index position. -/
theorem c6_counterexample :
    ¬ (∀ (i j : Nat) (ri rj : SearchResult),
        (semanticSearchCore c6Cands c6Bm 7 3).get? i = some ri →
        (semanticSearchCore c6Cands c6Bm 7 3).get? j = some rj →
        i < j → ri.score = rj.score → ri.pos < rj.pos) := by
  intro h
  have hcore : semanticSearchCore c6Cands c6Bm 7 3 =
      [⟨2, 1000000/500001, 1⟩, ⟨1, 1, 2⟩, ⟨0, 1, 3⟩] := by
    norm_num [semanticSearchCore, fusedDict, semLoop, bmLoop, dset, dmem, dget, dkeys,
      stableSortDesc, insertDesc, buildResultsAux, c6Cands, c6Bm]
  have h12 := h 1 2 ⟨1, 1, 2⟩ ⟨0, 1, 3⟩ (by rw [hcore]; rfl) (by rw [hcore]; rfl)
    (by omega) rfl
  exact absurd h12 (by decide)

/-- C6 (amended): `semantic_search` returns at most `top_k` results, ordered
by weakly descending fused score with ranks `1, 2, …`; the vector candidate
set it fuses is exactly the provider's answer to a `top_k * 2` search; and
the function is a pure pipeline, so identical queries against an unchanged
index return identical results.  Ties, however, are broken by the insertion
order of the `sem_results` dict — FAISS candidates first, in FAISS rank
order, then the remaining corpus positions in ascending order — not by
original corpus position (see the counterexample); the stable-sort clause
below pins that tie order down exactly. -/
theorem c6_ranking_contract (cands : List (ℚ × Int)) (bmScores : List ℚ)
    (metaLen topK : Nat) :
    (semanticSearchCore cands bmScores metaLen topK).length ≤ topK
    ∧ (semanticSearchCore cands bmScores metaLen topK).Pairwise
        (fun r t => t.score ≤ r.score)
    ∧ (∀ i r, (semanticSearchCore cands bmScores metaLen topK).get? i = some r →
        r.rank = i + 1)
    ∧ (∀ s : ℚ,
        (stableSortDesc (dget (fusedDict cands bmScores metaLen))
            (dkeys (fusedDict cands bmScores metaLen))).filter
          (fun k => dget (fusedDict cands bmScores metaLen) k == s) =
        (dkeys (fusedDict cands bmScores metaLen)).filter
          (fun k => dget (fusedDict cands bmScores metaLen) k == s))
    ∧ (∀ (scorer : List (List String) → List String → List ℚ)
        (searchFn : List ℚ → Nat → List (ℚ × Int))
        (metaTexts : List String) (q : String) (v : List ℚ),
        semanticSearch scorer (fun _ => Except.ok v) searchFn metaTexts q topK =
          Except.ok (semanticSearchCore (searchFn v (topK * 2))
            (scorer (metaTexts.map pyTokenize) (pyTokenize (truncateQuery q)))
            metaTexts.length topK)) := by
  refine ⟨?_, ?_, ?_, ?_, ?_⟩
  · unfold semanticSearchCore
    rw [buildResultsAux_length]
    exact le_trans (le_of_eq (List.length_take _ _)) (Nat.min_le_left _ _)
  · unfold semanticSearchCore
    refine buildResultsAux_pairwise _ 0 _ ?_
    exact (stableSortDesc_pairwise _ _).sublist (List.take_sublist _ _)
  · intro i r h
    unfold semanticSearchCore at h
    have := buildResultsAux_rank _ _ 0 i r h
    omega
  · intro s
    exact stableSortDesc_filter_score _ _ s
  · intro scorer searchFn metaTexts q v
    rfl

/-- C9: when the FAISS index holds at least `top_k * 2` vectors, `index.search`
returns non-negative candidate indices (no `-1` padding) — the hypothesis
`hidx` — and BM25 produces one score per metadata entry — `hbm`.  Then every
returned result is built from a metadata position in `[0, len(metadata))`
(the `idx < len(metadata)` guard bounds the FAISS side from above, the BM25
enumeration stays within the corpus), and the positions of the returned
results are pairwise distinct, because they are keys of the `sem_results`
dict. -/
theorem c9_positions_valid (cands : List (ℚ × Int)) (bmScores : List ℚ)
    (metaLen topK : Nat)
    (hidx : ∀ p ∈ cands, 0 ≤ p.2) (hbm : bmScores.length = metaLen) :
    (∀ r ∈ semanticSearchCore cands bmScores metaLen topK,
        0 ≤ r.pos ∧ r.pos < (metaLen : Int))
    ∧ ((semanticSearchCore cands bmScores metaLen topK).map (fun r => r.pos)).Nodup := by
  constructor
  · intro r hr
    have hpos : r.pos ∈ (stableSortDesc (dget (fusedDict cands bmScores metaLen))
        (dkeys (fusedDict cands bmScores metaLen))).take topK := by
      rw [← buildResultsAux_map_pos (dget (fusedDict cands bmScores metaLen)) 0
        ((stableSortDesc _ (dkeys (fusedDict cands bmScores metaLen))).take topK)]
      exact List.mem_map.mpr ⟨r, hr, rfl⟩
    have hsort : r.pos ∈ stableSortDesc (dget (fusedDict cands bmScores metaLen))
        (dkeys (fusedDict cands bmScores metaLen)) :=
      List.mem_of_mem_take hpos
    have hkeys : r.pos ∈ dkeys (fusedDict cands bmScores metaLen) :=
      (stableSortDesc_perm _ _).mem_iff.mp hsort
    exact mem_dkeys_fusedDict cands bmScores metaLen hidx hbm r.pos hkeys
  · unfold semanticSearchCore
    rw [buildResultsAux_map_pos]
    refine List.Nodup.sublist (List.take_sublist _ _) ?_
    exact ((stableSortDesc_perm _ _).nodup_iff).mpr
      (nodup_dkeys_fusedDict cands bmScores metaLen)

/-- C9 (witness): a two-document corpus with both FAISS candidates in range;
the returned positions are distinct. -/
theorem c9_positions_valid_witness :
    ((semanticSearchCore [((1 : ℚ), (0 : Int)), (2, 1)] [0, 0] 2 1).map
      (fun r => r.pos)).Nodup :=
  (c9_positions_valid [((1 : ℚ), (0 : Int)), (2, 1)] [0, 0] 2 1
    (by decide) (by decide)).2

/-- C10: `rag_index.add_documents_to_index` can never reach its mutation and
write steps: `load_faiss_index` returns a 5-tuple and the function unpacks it
into two variables, so every call either fails loading or raises the
unpacking `ValueError`; in all cases the call returns an error and the
persisted index and metadata files are exactly as before the call. -/
theorem c10_add_documents_never_mutates {α : Type} (f : String → α) (st : RagStore α)
    (newDocs : List RDoc) :
    ((ragAddDocumentsToIndex f st newDocs).2 = st
      ∧ ∀ u, (ragAddDocumentsToIndex f st newDocs).1 ≠ Except.ok u)
    ∧ ∀ (idx : List α) (meta : List RMeta) (path : String),
        (ragAddDocumentsToIndex f ⟨path, some idx, some meta⟩ newDocs).1 =
          Except.error "too many values to unpack (expected 2)" := by
  constructor
  · unfold ragAddDocumentsToIndex loadFaissIndex
    cases hI : st.indexFile with
    | none => exact ⟨rfl, fun u h => by simp at h⟩
    | some idx =>
      cases hM : st.metaFile with
      | none => exact ⟨rfl, fun u h => by simp at h⟩
      | some meta => exact ⟨rfl, fun u h => by simp [pyUnpack2] at h⟩
  · intro idx meta path
    rfl

/-- C1: (build) a successful `rag_index.build_faiss_index` returns an index
holding exactly one vector per metadata record, so `index.ntotal ==
len(metadata)` for the persisted pair; (append) `e.add_documents_to_index`
preserves that parity, given that the embedding helper returns one vector per
input text on success (`hg`, its §4.3 contract); (verify) the verification
step of the build reports consistency exactly when the two counts are
equal. -/
theorem c1_index_metadata_parity {α : Type} (f : String → α) (chunks : List RChunk)
    (sdocs : Option (List RDoc)) (g : List String → Except String (List α))
    (st : IndexStore α) (docs : List ADoc)
    (hg : ∀ ts vs, g ts = Except.ok vs → vs.length = ts.length) :
    (∀ idx meta, ragBuildFaissIndex f chunks sdocs = some (idx, meta) →
        idx.length = meta.length)
    ∧ (st.index.length = st.meta.length →
        (eAddDocumentsToIndex g st docs).2.index.length =
          (eAddDocumentsToIndex g st docs).2.meta.length)
    ∧ (∀ n m : Nat, verifyReportsConsistent n m = true ↔ n = m) := by
  refine ⟨?_, ?_, ?_⟩
  · intro idx meta h
    unfold ragBuildFaissIndex at h
    by_cases hempty : (ragBuildPairs chunks sdocs).map (fun p => p.1) = []
    · rw [if_pos hempty] at h
      exact absurd h (by simp)
    · rw [if_neg hempty] at h
      have h2 := Option.some.inj h
      have hidx : idx = embedTexts f ((ragBuildPairs chunks sdocs).map (fun p => p.1)) :=
        (congrArg Prod.fst h2).symm
      have hmeta : meta = (ragBuildPairs chunks sdocs).map (fun p => p.2) :=
        (congrArg Prod.snd h2).symm
      rw [hidx, hmeta, embedTexts_eq_map]
      simp
  · intro hparity
    unfold eAddDocumentsToIndex
    by_cases hempty : (eAddPairs docs).map (fun p => p.1) = []
    · rw [if_pos hempty]
      exact hparity
    · rw [if_neg hempty]
      cases hgr : g ((eAddPairs docs).map (fun p => p.1)) with
      | error e => exact hparity
      | ok vs =>
        dsimp only
        by_cases hlen : vs.length = 0
        · rw [if_pos hlen]
          exact hparity
        · rw [if_neg hlen]
          simp only [List.length_append, List.length_map]
          rw [hparity, hg _ _ hgr]
          simp
  · intro n m
    unfold verifyReportsConsistent
    simp

/-- C1 (witness): appending one plain document to an empty consistent store
through the parity theorem. -/
theorem c1_index_metadata_parity_witness :
    (eAddDocumentsToIndex c1Embed ⟨[], []⟩ [c1Doc]).2.index.length =
      (eAddDocumentsToIndex c1Embed ⟨[], []⟩ [c1Doc]).2.meta.length :=
  (c1_index_metadata_parity (fun s => s.data.length) [] none c1Embed ⟨[], []⟩ [c1Doc]
    (fun ts vs h => by
      simp only [c1Embed, Except.ok.injEq] at h
      rw [← h]
      simp)).2.1 rfl

/-- C8: with checkpointing enabled (the default), when embedding succeeds for
all texts (a non-empty vector list comes back), the build clears the
checkpoint file and proceeds; when embedding raises, the still-existing
checkpoint file is left in place, the handler prints a message naming the
checkpoint path and a message telling the operator that a resume is possible,
and the error is re-raised unchanged. -/
theorem c8_checkpoint_lifecycle {α : Type} (vs : List α) (e : String) :
    (vs ≠ [] →
      (buildEmbedPhase true (Except.ok vs) : BuildEmbedOutcome α).result = Except.ok vs
      ∧ (buildEmbedPhase true (Except.ok vs) : BuildEmbedOutcome α).ckptExists = false)
    ∧ ((buildEmbedPhase true (Except.error e) : BuildEmbedOutcome α).result = Except.error e
      ∧ (buildEmbedPhase true (Except.error e) : BuildEmbedOutcome α).ckptExists = true
      ∧ ("Checkpoint saved at: " ++ (CHECKPOINT_DIR ++ "/build_checkpoint.pkl")) ∈
          (buildEmbedPhase true (Except.error e) : BuildEmbedOutcome α).log
      ∧ "Run the index build again to resume from checkpoint." ∈
          (buildEmbedPhase true (Except.error e) : BuildEmbedOutcome α).log) := by
  constructor
  · intro hvs
    have hlen : vs.length ≠ 0 := fun h => hvs (List.length_eq_zero.mp h)
    simp [buildEmbedPhase, embedWithRetry, clearCheckpoint, hlen]
  · simp [buildEmbedPhase, embedWithRetry, ckptLog]

/-- C8 (witness): the success branch at a concrete one-vector result. -/
theorem c8_checkpoint_lifecycle_witness :
    (buildEmbedPhase true (Except.ok [(0 : Nat)])).result = Except.ok [(0 : Nat)]
    ∧ (buildEmbedPhase true (Except.ok [(0 : Nat)])).ckptExists = false :=
  (c8_checkpoint_lifecycle [(0 : Nat)] "boom").1 (by simp)

/-- C3 (witness): the group invariant applied to a concrete one-word
document. -/
theorem c3_paragraph_chunks_witness :
    ["x"] ≠ ([] : List String) ∧ (2 ≤ (["x"] : List String).length → sumTokens ["x"] ≤ 5) :=
  (c3_paragraph_chunks "x" 1800 200 5).2.2 ["x"] (by
    have h1 : pySplitParagraphs "x" = ["x"] := by
      unfold pySplitParagraphs
      rw [splitParasAux_no_newline _ _ (by decide)]
      rfl
    rw [h1]
    decide)

/-- C6 (witness): the rank numbering applied to a concrete one-document
ranking. -/
theorem c6_ranking_contract_witness :
    (⟨(0 : Int), (5 : ℚ), 1⟩ : SearchResult).rank = 0 + 1 :=
  (c6_ranking_contract [] [(5 : ℚ)] 1 1).2.2.1 0 ⟨0, 5, 1⟩ (by rfl)

/-- C10 (witness): a call on a store with both files present leaves the store
unchanged. -/
theorem c10_add_documents_never_mutates_witness :
    (ragAddDocumentsToIndex (fun s => s.data.length)
        ⟨"idx.faiss", some [], some []⟩ []).2 = ⟨"idx.faiss", some [], some []⟩ :=
  (c10_add_documents_never_mutates (fun s => s.data.length)
    ⟨"idx.faiss", some [], some []⟩ []).1.1

theorem lazyScan_snd_length (cs : List Char) : (lazyScan cs).2.length ≤ cs.length := by
  induction cs with
  | nil => simp [lazyScan]
  | cons c rest ih =>
    rw [lazyScan]
    by_cases h : (createHeadLen (c :: rest)).isSome || atDollar (c :: rest)
    · simp [h]
    · simp only [h, if_false]
      exact le_trans ih (by simp)

theorem c3Text_est : estimate_tokens c3Text = 1025 := by
  rw [show c3Text = String.mk (List.replicate 4100 'a') from rfl,
    estimate_tokens_replicate_a 4100 (by norm_num)]
  decide

theorem startsWithChars_replicate_ne (c d : Char) (h : d ≠ c) (ds : List Char) :
    ∀ n, startsWithChars (d :: ds) (List.replicate n c) = false := by
  intro n
  cases n with
  | zero => rfl
  | succ n =>
    rw [List.replicate_succ, startsWithChars]
    simp [h]

theorem hasSub_replicate_head (c d : Char) (h : d ≠ c) (ds : List Char) :
    ∀ n, hasSub (List.replicate n c) (d :: ds) = false := by
  intro n
  induction n with
  | zero => simp [hasSub]
  | succ n ih =>
    rw [List.replicate_succ, hasSub, ← List.replicate_succ,
      startsWithChars_replicate_ne c d h ds (n + 1)]
    simpa using ih

theorem pyLower_c3Text : (pyLower c3Text).data = List.replicate 4100 'a' := by
  show (List.replicate 4100 'a').map Char.toLower = _
  rw [List.map_replicate, show Char.toLower 'a' = 'a' from by decide]

/-- `_detect_file_type` finds none of its markers in the all-`'a'` document,
so the paragraph strategy is selected. -/
theorem detectFileType_c3 : detectFileType c3Text = "unknown" := by
  unfold detectFileType
  have key : ∀ (d : Char) (ds : List Char), d ≠ 'a' →
      hasSub (List.replicate 4100 'a') (d :: ds) = false :=
    fun d ds h => hasSub_replicate_head 'a' d h ds 4100
  have h01 : pyIn "public class" (pyLower c3Text) = false := by
    unfold pyIn; rw [pyLower_c3Text]; exact key 'p' ("ublic class").data (by decide)
  have h02 : pyIn "namespace" (pyLower c3Text) = false := by
    unfold pyIn; rw [pyLower_c3Text]; exact key 'n' ("amespace").data (by decide)
  have h03 : pyIn "using system" (pyLower c3Text) = false := by
    unfold pyIn; rw [pyLower_c3Text]; exact key 'u' ("sing system").data (by decide)
  have h04 : pyIn "export class" (pyLower c3Text) = false := by
    unfold pyIn; rw [pyLower_c3Text]; exact key 'e' ("xport class").data (by decide)
  have h05 : pyIn "import \x7b" (pyLower c3Text) = false := by
    unfold pyIn; rw [pyLower_c3Text]; exact key 'i' ("mport \x7b").data (by decide)
  have h06 : pyIn "@component" (pyLower c3Text) = false := by
    unfold pyIn; rw [pyLower_c3Text]; exact key '@' ("component").data (by decide)
  have h07 : pyIn "function(" (pyLower c3Text) = false := by
    unfold pyIn; rw [pyLower_c3Text]; exact key 'f' ("unction(").data (by decide)
  have h08 : pyIn "const " (pyLower c3Text) = false := by
    unfold pyIn; rw [pyLower_c3Text]; exact key 'c' ("onst ").data (by decide)
  have h09 : pyIn "var " (pyLower c3Text) = false := by
    unfold pyIn; rw [pyLower_c3Text]; exact key 'v' ("ar ").data (by decide)
  have h10 : pyIn "create procedure" (pyLower c3Text) = false := by
    unfold pyIn; rw [pyLower_c3Text]; exact key 'c' ("reate procedure").data (by decide)
  have h11 : pyIn "begin" (pyLower c3Text) = false := by
    unfold pyIn; rw [pyLower_c3Text]; exact key 'b' ("egin").data (by decide)
  simp [h01, h02, h03, h04, h05, h06, h07, h08, h09, h10, h11]

/-- The 4100-character structureless document travels through
`sliding_window`'s dispatch — token check, `_detect_file_type`, paragraph
strategy — and comes back as one single chunk. -/
theorem sliding_window_c3 : sliding_window c3Text 1800 200 = [c3Text] := by
  unfold sliding_window
  rw [if_neg (by rw [show c3Text.data = List.replicate 4100 'a' from rfl,
    List.length_replicate]; norm_num)]
  rw [c3Text_est]
  rw [if_neg (by norm_num [TARGET_TOKENS])]
  have hsmart : smartChunkWithTokenLimit c3Text 1800 200 TARGET_TOKENS = [c3Text] := by
    unfold smartChunkWithTokenLimit
    rw [detectFileType_c3]
    rw [if_neg (by simp), if_neg (by simp)]
    exact chunkByParagraphs_no_newline c3Text c3Text_no_newline 1800 200 TARGET_TOKENS
  rw [hsmart]
  simp

/-- C3 (counterexample): chunking the 4100-character structureless document
`c3Text` with `sliding_window` (whose `TARGET_TOKENS` is `T = 500`) yields
the single chunk `c3Text` itself, whose estimated token count is
`4100 / 4 = 1025 > 2 * 500`: the claimed bound
`estimate_tokens(chunk) ≤ 2 * T` is false.  The document routes through
`_detect_file_type` to the paragraph strategy, which emits the oversized
single paragraph whole and never invokes `_force_split_large_chunk`. -/
theorem c3_counterexample :
    ¬ (∀ chunk ∈ sliding_window c3Text 1800 200,
        estimate_tokens chunk ≤ 2 * 500) := by
  intro h
  have hmem : c3Text ∈ sliding_window c3Text 1800 200 := by
    rw [sliding_window_c3]; exact List.mem_singleton.mpr rfl
  have := h c3Text hmem
  rw [c3Text_est] at this
  omega
